import Mathlib

/-!
Shallow embedding of the core data layer of the medytox-data-shield-excel-web
repository (src/src/contexts/DataContext.tsx and the CSV export of
src/src/App.tsx), together with theorems settling the frozen claims.

Modelling conventions:
* JS `string | number | boolean | null` cell values become the inductive
  `CellValue`; numbers are carried as `Int` (the core never computes with
  them, they are opaque payloads).
* JS `Date` timestamps and `crypto.randomUUID()` ids are environment inputs;
  they are passed to the operations as explicit arguments (`now : Nat`,
  `newId : String`).
* A JS array of cells may acquire holes: assigning `row[c] = x` with
  `c ≥ row.length` pads the array with holes up to index `c`.  A row is
  therefore `List (Option Cell)` with `none` for a hole; the `rows` array
  itself never acquires holes (it only grows by `push`), so it is a plain
  list of rows.
* `rows[r]?.[c]` (undefined on a missing row, hole or out-of-range column)
  becomes `getCell`, returning `Option Cell`.
* Reading `updatedRows[r][c]` when `updatedRows[r]` is `undefined` throws a
  TypeError in JS; operations that can reach such a read return
  `Except String _`, `.error` being the thrown exception.
* Toast messages matter to the claims only as distinct outcomes, so each
  operation returns an outcome constructor rather than the message text.
-/

namespace DataShield

/-- JS cell value: `string | number | boolean | null`. -/
inductive CellValue where
  | str (s : String)
  | num (n : Int)
  | bool (b : Bool)
  | null
deriving Repr, DecidableEq

/-- `CellPermissions` record from DataContext.tsx. -/
structure CellPermissions where
  roles : List String
  editable : Bool
  viewable : Bool
deriving Repr, DecidableEq

/-- `CellHistoryEntry` record from DataContext.tsx. -/
structure CellHistoryEntry where
  value : CellValue
  timestamp : Nat
  userId : String
deriving Repr, DecidableEq

/-- `Cell` record from DataContext.tsx; optional JS fields are `Option`. -/
structure Cell where
  value : CellValue
  confirmed : Bool
  confirmedBy : Option String := none
  confirmedAt : Option Nat := none
  confirmedComments : Option String := none
  permissions : Option CellPermissions := none
  history : List CellHistoryEntry
deriving Repr, DecidableEq

/-- A row of the JS `Cell[][]` array; `none` is a hole (`undefined` slot). -/
abbrev Row := List (Option Cell)

/-- `TableData` record from DataContext.tsx. -/
structure TableData where
  id : String
  name : String
  headers : List String
  rows : List Row
  confirmed : Bool
  confirmedBy : Option String := none
  confirmedAt : Option Nat := none
  confirmedComments : Option String := none
  version : Nat
deriving Repr, DecidableEq

/-- `User` record from AuthContext.tsx (roles are plain strings in the code). -/
structure User where
  id : String
  name : String
  email : String
  role : String
  permissions : List String
deriving Repr, DecidableEq

/-- The `DataProvider` react state: the table list and the selected id. -/
structure DataState where
  tables : List TableData
  currentTableId : Option String
deriving Repr, DecidableEq

/-- `tables.find(table => table.id === currentTableId) || null`. -/
def currentTable (s : DataState) : Option TableData :=
  s.currentTableId.bind fun tid => s.tables.find? fun t => t.id == tid

/-- The cell literal `{ value: null, confirmed: false, history: [] }`. -/
def emptyCell : Cell :=
  { value := .null, confirmed := false, history := [] }

/-- `table.rows[r]?.[c]` — `undefined` (here `none`) on a missing row, a
hole, or an out-of-range column. -/
def getCell (t : TableData) (r c : Nat) : Option Cell :=
  (t.rows.get? r).bind fun row => row.getD c none

/-- JS element assignment `row[c] = cell`: in-place set when `c` is in
range, otherwise the array grows to length `c + 1`, padding with holes. -/
def jsSetRow (row : Row) (c : Nat) (cell : Cell) : Row :=
  if c < row.length then row.set c (some cell)
  else row ++ List.replicate (c - row.length) none ++ [some cell]

/-- `canEditCell` from DataContext.tsx, with the surrounding
`currentTable` / `user` context made explicit. -/
def canEditCell (ct : Option TableData) (user : Option User) (r c : Nat) : Bool :=
  match ct, user with
  | some t, some u =>
    if u.role == "admin" then true
    else
      match getCell t r c with
      | none => true
      | some cell =>
        match cell.permissions with
        | some p => p.roles.contains u.role && p.editable
        | none => u.role == "dp_team"
  | _, _ => false

/-- `canViewCell` from DataContext.tsx. -/
def canViewCell (ct : Option TableData) (user : Option User) (r c : Nat) : Bool :=
  match ct, user with
  | some t, some u =>
    if u.role == "admin" then true
    else
      match getCell t r c with
      | none => true
      | some cell =>
        match cell.permissions with
        | some p => p.roles.contains u.role && p.viewable
        | none => true
  | _, _ => false

/-- Outcome of `updateCell`: the returned boolean is `success`; the three
failure constructors distinguish the silent return, the permission toast
and the confirmed-cell toast. -/
inductive UpdateOutcome where
  | silentFail
  | forbidden
  | locked
  | success
deriving Repr, DecidableEq

/-- The `setTables(tables.map(table => table.id === currentTableId ?
{...table, rows: updatedRows} : table))` pattern shared by the cell-level
mutations. -/
def setCurrentRows (s : DataState) (rows : List Row) : DataState :=
  { s with tables := s.tables.map fun t =>
      if some t.id == s.currentTableId then { t with rows := rows } else t }

/-- The sparse row extension of `updateCell`: when row `r` does not exist,
`while (updatedRows.length <= rowIndex)` pushes rows of `headers.length`
empty cells until index `r` exists. -/
def sparseRows (ct : TableData) (r : Nat) : List Row :=
  if r < ct.rows.length then ct.rows
  else ct.rows ++ List.replicate (r + 1 - ct.rows.length)
    (List.replicate ct.headers.length (some emptyCell))

/-- The cell written by a successful `updateCell`: value replaced, history
extended by the entry that captures the previous value, editor and time;
all other fields of the previous cell kept. -/
def updatedCell (currentCell : Cell) (v : CellValue) (now : Nat) (uid : String) : Cell :=
  { currentCell with
    value := v
    history := currentCell.history ++
      [{ value := currentCell.value, timestamp := now, userId := uid }] }

/-- `updateCell` from DataContext.tsx.  `now` is the `new Date()` of the
history entry. -/
def updateCell (s : DataState) (user : Option User) (r c : Nat) (v : CellValue)
    (now : Nat) : DataState × UpdateOutcome :=
  match currentTable s, user with
  | none, _ => (s, .silentFail)
  | _, none => (s, .silentFail)
  | some ct, some u =>
    if !canEditCell (some ct) (some u) r c then (s, .forbidden)
    else if ((getCell ct r c).map Cell.confirmed).getD false then (s, .locked)
    else
      let updatedRows := sparseRows ct r
      let row := updatedRows.getD r []
      let currentCell := (row.getD c none).getD emptyCell
      let newCell := updatedCell currentCell v now u.id
      (setCurrentRows s (updatedRows.set r (jsSetRow row c newCell)), .success)

/-- Outcome of `confirmCell` / `setCellPermissions`: `noop` when no table
or no user, `forbidden` on the permission toast, `skipped` when the
`if (currentCell)` guard finds the cell missing, `applied` on success. -/
inductive CellOpOutcome where
  | noop
  | forbidden
  | skipped
  | applied
deriving Repr, DecidableEq

/-- `confirmCell` from DataContext.tsx.  Reading
`updatedRows[rowIndex][colIndex]` throws when the row is missing, hence the
`Except`: `.error` is the thrown TypeError. -/
def confirmCell (s : DataState) (user : Option User) (r c : Nat)
    (comments : Option String) (now : Nat) :
    Except String (DataState × CellOpOutcome) :=
  match currentTable s, user with
  | none, _ => .ok (s, .noop)
  | _, none => .ok (s, .noop)
  | some ct, some u =>
    if !u.permissions.contains "confirm_data" then .ok (s, .forbidden)
    else
      match ct.rows.get? r with
      | none => .error "TypeError: cannot read properties of undefined"
      | some row =>
        match row.getD c none with
        | none => .ok (s, .skipped)
        | some cell =>
          let newCell : Cell :=
            { cell with
              confirmed := true
              confirmedBy := some u.id
              confirmedAt := some now
              confirmedComments := comments }
          .ok (setCurrentRows s (ct.rows.set r (jsSetRow row c newCell)), .applied)

/-- `setCellPermissions` from DataContext.tsx; same missing-row TypeError
as `confirmCell`. -/
def setCellPermissions (s : DataState) (user : Option User) (r c : Nat)
    (perms : CellPermissions) : Except String (DataState × CellOpOutcome) :=
  match currentTable s, user with
  | none, _ => .ok (s, .noop)
  | _, none => .ok (s, .noop)
  | some ct, some u =>
    if !(u.role == "admin") then .ok (s, .forbidden)
    else
      match ct.rows.get? r with
      | none => .error "TypeError: cannot read properties of undefined"
      | some row =>
        match row.getD c none with
        | none => .ok (s, .skipped)
        | some cell =>
          let newCell : Cell := { cell with permissions := some perms }
          .ok (setCurrentRows s (ct.rows.set r (jsSetRow row c newCell)), .applied)

/-- Outcome of `confirmTable`. -/
inductive TableConfirmOutcome where
  | noop
  | forbidden
  | applied
deriving Repr, DecidableEq

/-- `confirmTable` from DataContext.tsx. -/
def confirmTable (s : DataState) (user : Option User) (comments : Option String)
    (now : Nat) : DataState × TableConfirmOutcome :=
  match currentTable s, user with
  | none, _ => (s, .noop)
  | _, none => (s, .noop)
  | some ct, some u =>
    if !u.permissions.contains "confirm_data" then (s, .forbidden)
    else
      let updatedTable : TableData :=
        { ct with
          confirmed := true
          confirmedBy := some u.id
          confirmedAt := some now
          confirmedComments := comments
          version := ct.version + 1 }
      ({ s with tables := s.tables.map fun t =>
          if some t.id == s.currentTableId then updatedTable else t }, .applied)

/-- `addRow` from DataContext.tsx. -/
def addRow (s : DataState) (user : Option User) : DataState :=
  match currentTable s, user with
  | some ct, some _ =>
    setCurrentRows s (ct.rows ++ [List.replicate ct.headers.length (some emptyCell)])
  | _, _ => s

/-- `addColumn` from DataContext.tsx. -/
def addColumn (s : DataState) (user : Option User) (header : String) : DataState :=
  match currentTable s, user with
  | some ct, some _ =>
    let updatedHeaders := ct.headers ++ [header]
    let updatedRows := ct.rows.map fun row => row ++ [some emptyCell]
    { s with tables := s.tables.map fun t =>
        if some t.id == s.currentTableId
        then { t with headers := updatedHeaders, rows := updatedRows }
        else t }
  | _, _ => s

/-- The demo default permission pattern `createTable` stamps on column `c`. -/
def defaultColPermissions (c : Nat) : CellPermissions :=
  if c % 3 == 0 then
    { roles := ["admin", "dp_team"], editable := true, viewable := true }
  else if c % 3 == 1 then
    { roles := ["admin", "dp_team", "qa_team"], editable := true, viewable := true }
  else
    { roles := ["admin", "qa_team"], editable := false, viewable := true }

/-- `createTable` from DataContext.tsx; `newId` is the `crypto.randomUUID()`
environment input. -/
def createTable (s : DataState) (user : Option User) (newId : String)
    (name : String) (headers : List String) (initialRows : Nat := 10) : DataState :=
  match user with
  | none => s
  | some _ =>
    let row : Row := (List.range headers.length).map fun c =>
      some { emptyCell with permissions := some (defaultColPermissions c) }
    let newTable : TableData :=
      { id := newId
        name := name
        headers := headers
        rows := List.replicate initialRows row
        confirmed := false
        version := 1 }
    { tables := s.tables ++ [newTable], currentTableId := some newId }

/-- `selectTable` from DataContext.tsx. -/
def selectTable (s : DataState) (id : String) : DataState :=
  match s.tables.find? fun t => t.id == id with
  | some _ => { s with currentTableId := some id }
  | none => s

/-- `value.replace(/"/g, two quote chars)` of handleExportCSV: double every
quote character of the string. -/
def doubleQuotes (s : String) : String :=
  String.mk (s.data.foldr (fun ch acc =>
    if ch = '"' then '"' :: '"' :: acc else ch :: acc) [])

/-- One data field of handleExportCSV (App.tsx): nullish values become the
empty string; a string containing a comma or a quote is wrapped in quotes
with embedded quotes doubled; numbers and booleans reach `join` unchanged
and are stringified there. -/
def csvDataField (v : CellValue) : String :=
  match v with
  | .null => ""
  | .str s =>
    if s.data.contains ',' || s.data.contains '"'
    then "\"" ++ doubleQuotes s ++ "\""
    else s
  | .num n => toString n
  | .bool b => if b then "true" else "false"

/-- One data line of handleExportCSV: `rowData.join` with a hole rendered
as the empty string (JS `map` keeps holes and `join` prints them empty). -/
def csvRowLine (row : Row) : String :=
  String.intercalate "," (row.map fun oc =>
    match oc with
    | none => ""
    | some cell => csvDataField cell.value)

/-- `handleExportCSV` from App.tsx, as a function of the exported table and
the include-headers toggle: the produced `csvContent` string. -/
def handleExportCSV (t : TableData) (includeHeaders : Bool) : String :=
  (if includeHeaders then String.intercalate "," t.headers ++ "\n" else "")
  ++ String.join (t.rows.map fun row => csvRowLine row ++ "\n")

/-- The list of table versions of a state, used to express which
operations may change a `version`. -/
def versionsOf (s : DataState) : List Nat :=
  s.tables.map TableData.version

/-- Spec predicate (§8.5 structural consistency): every row of the table
has exactly `headers.length` slots. -/
def rowLengthsMatch (t : TableData) : Bool :=
  t.rows.all fun row => row.length == t.headers.length

/-- The JS string a cell value contributes to a CSV line before any
quoting: nullish becomes the empty string, others are `String(value)`. -/
def rawFieldText (v : CellValue) : String :=
  match v with
  | .null => ""
  | .str s => s
  | .num n => toString n
  | .bool b => if b then "true" else "false"

/-- CSV field quoting exactly as claim C9 words it, applicable to any
field: wrap in double quotes when the text contains a comma or a quote
character, doubling each embedded quote character. -/
def claimQuotedField (text : String) : String :=
  if text.data.any fun ch => ch = ',' || ch = '"' then
    "\"" ++ String.mk (text.data.flatMap fun ch =>
      if ch = '"' then ['"', '"'] else [ch]) ++ "\""
  else text

/-- CSV serialization as claim C9 states it: EVERY field — header fields
included — containing a comma or a quote is wrapped in double quotes with
embedded quotes doubled; header row iff the toggle is on; rows in table
order. -/
def exportCSVPerClaim (t : TableData) (includeHeaders : Bool) : String :=
  (if includeHeaders then
    String.intercalate "," (t.headers.map claimQuotedField) ++ "\n"
  else "")
  ++ String.join (t.rows.map fun row =>
      String.intercalate "," (row.map fun oc =>
        claimQuotedField (match oc with
          | none => ""
          | some cell => rawFieldText cell.value)) ++ "\n")

/-- CSV serialization as the amended claim states it: header fields are
emitted verbatim (never quoted); each data field is the JS string of the
value, wrapped in double quotes with embedded quotes doubled exactly when
the value is a string containing a comma or a quote; header row iff the
toggle is on; data rows in table order, holes empty. -/
def exportCSVAmended (t : TableData) (includeHeaders : Bool) : String :=
  (if includeHeaders then String.intercalate "," t.headers ++ "\n" else "")
  ++ String.join (t.rows.map fun row =>
      String.intercalate "," (row.map fun oc =>
        match oc with
        | none => ""
        | some cell =>
          match cell.value with
          | .str str =>
            if str.data.any (fun ch => ch = ',' || ch = '"') then
              "\"" ++ String.mk (str.data.flatMap fun ch =>
                if ch = '"' then ['"', '"'] else [ch]) ++ "\""
            else str
          | other => rawFieldText other) ++ "\n")

/-! Concrete fixtures used to evaluate the operations: the mock users of
AuthContext.tsx and a small table state. -/

/-- Mock user 1 of AuthContext.tsx. -/
def adminUser : User :=
  { id := "1"
    name := "Admin User"
    email := "admin@medytox.com"
    role := "admin"
    permissions := ["edit_all", "view_all", "confirm_data", "manage_users"] }

/-- Mock user 2 of AuthContext.tsx. -/
def dpUser : User :=
  { id := "2"
    name := "DP Team Member"
    email := "dp@medytox.com"
    role := "dp_team"
    permissions := ["edit_data", "view_all", "confirm_data"] }

/-- Mock user 3 of AuthContext.tsx. -/
def qaUser : User :=
  { id := "3"
    name := "QA Team Member"
    email := "qa@medytox.com"
    role := "qa_team"
    permissions := ["view_all", "confirm_data"] }

/-- Mock user 4 of AuthContext.tsx. -/
def viewerUser : User :=
  { id := "4"
    name := "Viewer"
    email := "viewer@medytox.com"
    role := "viewer"
    permissions := ["view_all"] }

/-- An unconfirmed cell with no permission override and empty history. -/
def plainCell (v : CellValue) : Cell :=
  { value := v, confirmed := false, history := [] }

/-- A 2×2 demo table with no permission overrides. -/
def demoTable : TableData :=
  { id := "t1"
    name := "QC Run 1"
    headers := ["Batch", "Result"]
    rows := [[some (plainCell (.str "B1")), some (plainCell (.num 42))],
             [some (plainCell .null), some (plainCell .null)]]
    confirmed := false
    version := 1 }

/-- State holding `demoTable`, selected. -/
def demoState : DataState :=
  { tables := [demoTable], currentTableId := some "t1" }

/-- A confirmed cell (by user 3 at time 7) holding 42. -/
def lockedCell : Cell :=
  { plainCell (.num 42) with
    confirmed := true
    confirmedBy := some "3"
    confirmedAt := some 7 }

/-- `demoTable` with cell (0,1) replaced by the confirmed `lockedCell`. -/
def lockedTable : TableData :=
  { demoTable with
    rows := [[some (plainCell (.str "B1")), some lockedCell],
             [some (plainCell .null), some (plainCell .null)]] }

/-- State holding `lockedTable`, selected. -/
def lockedState : DataState :=
  { tables := [lockedTable], currentTableId := some "t1" }

/-- A 1×1 table (single header, single unrestricted cell). -/
def tinyTable : TableData :=
  { id := "t2"
    name := "Tiny"
    headers := ["H"]
    rows := [[some (plainCell .null)]]
    confirmed := false
    version := 1 }

/-- State holding `tinyTable`, selected. -/
def tinyState : DataState :=
  { tables := [tinyTable], currentTableId := some "t2" }

/-- A table whose only header contains a comma, with one plain data row. -/
def csvTable : TableData :=
  { id := "t3"
    name := "CSV"
    headers := ["a,b"]
    rows := [[some (plainCell (.str "x"))]]
    confirmed := false
    version := 1 }

/-! ### Helper lemmas -/

theorem beq_some_some (a b : String) : (some a == some b) = (a == b) := rfl

theorem find?_map_replace (l : List TableData) (tid : String)
    (g : TableData → TableData)
    (hg : ∀ t, (t.id == tid) = true → ((g t).id == tid) = true) :
    ((l.map fun t => if t.id == tid then g t else t).find? fun t => t.id == tid) =
      ((l.find? fun t => t.id == tid).map g) := by
  induction l with
  | nil => rfl
  | cons t l ih =>
    simp only [List.map_cons]
    by_cases h : (t.id == tid) = true
    · rw [if_pos h,
        List.find?_cons_of_pos (p := fun (t : TableData) => t.id == tid) _ (hg t h),
        List.find?_cons_of_pos (p := fun (t : TableData) => t.id == tid) _ h]
      rfl
    · rw [if_neg h,
        List.find?_cons_of_neg (p := fun (t : TableData) => t.id == tid) _ h,
        List.find?_cons_of_neg (p := fun (t : TableData) => t.id == tid) _ h, ih]

theorem currentTable_mapped (s : DataState) (ct : TableData)
    (g : TableData → TableData)
    (hg : ∀ t, (g t).id = t.id ∨ (g t).id = ct.id)
    (h : currentTable s = some ct) :
    currentTable
      { s with tables := s.tables.map fun t =>
          if some t.id == s.currentTableId then g t else t } =
      some (g ct) := by
  unfold currentTable at h ⊢
  cases htid : s.currentTableId with
  | none => rw [htid] at h; exact Option.noConfusion h
  | some tid =>
    rw [htid] at h
    simp only [Option.some_bind] at h
    have hid : (ct.id == tid) = true :=
      List.find?_some (p := fun (t : TableData) => t.id == tid) h
    simp only [htid, Option.some_bind, beq_some_some]
    rw [find?_map_replace s.tables tid g ?hg]
    · rw [h]; rfl
    case hg =>
      intro t ht
      rcases hg t with hgt | hgt <;> rw [hgt]
      · exact ht
      · exact hid

theorem currentTable_setCurrentRows (s : DataState) (ct : TableData)
    (rows' : List Row) (h : currentTable s = some ct) :
    currentTable (setCurrentRows s rows') = some { ct with rows := rows' } := by
  unfold setCurrentRows
  exact currentTable_mapped s ct (fun t => { t with rows := rows' })
    (fun t => Or.inl rfl) h

theorem updateCell_no_context (s : DataState) (user : Option User) (r c : Nat)
    (v : CellValue) (now : Nat) (h : currentTable s = none ∨ user = none) :
    updateCell s user r c v now = (s, .silentFail) := by
  unfold updateCell
  rcases h with h | h
  · rw [h]
    cases user <;> rfl
  · rw [h]
    cases currentTable s <;> rfl

theorem updateCell_forbidden_branch (s : DataState) (ct : TableData) (u : User)
    (r c : Nat) (v : CellValue) (now : Nat)
    (hct : currentTable s = some ct)
    (hE : canEditCell (some ct) (some u) r c = false) :
    updateCell s (some u) r c v now = (s, .forbidden) := by
  unfold updateCell
  rw [hct]
  simp [hE]

theorem updateCell_locked_branch (s : DataState) (ct : TableData) (u : User)
    (r c : Nat) (v : CellValue) (now : Nat) (cell : Cell)
    (hct : currentTable s = some ct)
    (hE : canEditCell (some ct) (some u) r c = true)
    (hcell : getCell ct r c = some cell)
    (hconf : cell.confirmed = true) :
    updateCell s (some u) r c v now = (s, .locked) := by
  unfold updateCell
  rw [hct]
  simp [hE, hcell, hconf]

theorem length_sparseRows (ct : TableData) (r : Nat) :
    r < (sparseRows ct r).length := by
  unfold sparseRows
  by_cases h : r < ct.rows.length
  · rw [if_pos h]; exact h
  · rw [if_neg h]
    simp only [List.length_append, List.length_replicate]
    omega

theorem getD_jsSetRow_self (row : Row) (c : Nat) (cell : Cell) :
    (jsSetRow row c cell).getD c none = some cell := by
  unfold jsSetRow
  by_cases h : c < row.length
  · rw [if_pos h, List.getD_eq_getElem?_getD, List.getElem?_set_self h]
    rfl
  · rw [if_neg h, List.getD_eq_getElem?_getD, List.append_assoc,
      List.getElem?_append_right (Nat.le_of_not_lt h),
      List.getElem?_append_right (by simp)]
    simp

theorem sparse_current_cell (ct : TableData) (r c : Nat) :
    ((((sparseRows ct r).getD r []).getD c none).getD emptyCell) =
      (getCell ct r c).getD emptyCell := by
  unfold sparseRows getCell
  by_cases h : r < ct.rows.length
  · rw [if_pos h]
    obtain ⟨row0, hrow⟩ : ∃ row0, ct.rows.get? r = some row0 :=
      ⟨ct.rows.get ⟨r, h⟩, List.get?_eq_get h⟩
    have hD : ct.rows.getD r [] = row0 := by
      rw [List.getD_eq_getElem?_getD, ← List.get?_eq_getElem?, hrow]
      rfl
    rw [hD, hrow, Option.some_bind]
  · rw [if_neg h]
    have h1 : ct.rows.get? r = none := List.get?_eq_none.mpr (Nat.le_of_not_lt h)
    have h2 : (ct.rows ++ List.replicate (r + 1 - ct.rows.length)
        (List.replicate ct.headers.length (some emptyCell))).getD r [] =
        List.replicate ct.headers.length (some emptyCell) := by
      rw [List.getD_eq_getElem?_getD,
        List.getElem?_append_right (Nat.le_of_not_lt h),
        List.getElem?_replicate_of_lt (by omega)]
      rfl
    rw [h1, Option.none_bind, h2, Option.getD_none, List.getD_eq_getElem?_getD,
      List.getElem?_replicate]
    by_cases hc : c < ct.headers.length
    · rw [if_pos hc]; rfl
    · rw [if_neg hc]; rfl

theorem updateCell_success_branch (s : DataState) (ct : TableData) (u : User)
    (r c : Nat) (v : CellValue) (now : Nat)
    (hct : currentTable s = some ct)
    (hE : canEditCell (some ct) (some u) r c = true)
    (hC : ((getCell ct r c).map Cell.confirmed).getD false = false) :
    updateCell s (some u) r c v now =
      (setCurrentRows s ((sparseRows ct r).set r
        (jsSetRow ((sparseRows ct r).getD r []) c
          (updatedCell ((((sparseRows ct r).getD r []).getD c none).getD emptyCell)
            v now u.id))), .success) := by
  unfold updateCell
  rw [hct]
  simp [hE, hC]

theorem getCell_after_set (ct : TableData) (r c : Nat) (nc : Cell) :
    getCell
      { ct with
        rows := (sparseRows ct r).set r (jsSetRow ((sparseRows ct r).getD r []) c nc) }
      r c = some nc := by
  unfold getCell
  have hrow : ((sparseRows ct r).set r
      (jsSetRow ((sparseRows ct r).getD r []) c nc)).get? r =
      some (jsSetRow ((sparseRows ct r).getD r []) c nc) := by
    rw [List.get?_eq_getElem?]
    exact List.getElem?_set_self (length_sparseRows ct r)
  rw [hrow, Option.some_bind, getD_jsSetRow_self]

theorem confirmCell_applied_branch (s : DataState) (ct : TableData) (u : User)
    (r c : Nat) (comments : Option String) (now : Nat) (row : Row) (cell : Cell)
    (hct : currentTable s = some ct)
    (hperm : u.permissions.contains "confirm_data" = true)
    (hrow : ct.rows.get? r = some row)
    (hcl : row.getD c none = some cell) :
    confirmCell s (some u) r c comments now =
      .ok (setCurrentRows s (ct.rows.set r (jsSetRow row c
        { cell with
          confirmed := true
          confirmedBy := some u.id
          confirmedAt := some now
          confirmedComments := comments })), .applied) := by
  have hrow' : ct.rows[r]? = some row := by
    rw [← List.get?_eq_getElem?]; exact hrow
  have hcl' : row[c]?.getD none = some cell := by
    rw [← List.getD_eq_getElem?_getD]; exact hcl
  have hmem : "confirm_data" ∈ u.permissions := List.elem_iff.mp hperm
  unfold confirmCell
  rw [hct]
  simp [hperm, hmem, hrow', hcl']

theorem getCell_set_existing (ct : TableData) (r c : Nat) (row : Row) (nc : Cell)
    (hrow : ct.rows.get? r = some row) :
    getCell { ct with rows := ct.rows.set r (jsSetRow row c nc) } r c = some nc := by
  unfold getCell
  have hr : r < ct.rows.length := by
    by_contra hnot
    rw [List.get?_eq_none.mpr (Nat.le_of_not_lt hnot)] at hrow
    exact Option.noConfusion hrow
  have hset : (ct.rows.set r (jsSetRow row c nc)).get? r =
      some (jsSetRow row c nc) := by
    rw [List.get?_eq_getElem?]
    exact List.getElem?_set_self hr
  rw [hset, Option.some_bind, getD_jsSetRow_self]

theorem addRow_some (s : DataState) (ct : TableData) (u : User)
    (hct : currentTable s = some ct) :
    addRow s (some u) =
      setCurrentRows s (ct.rows ++ [List.replicate ct.headers.length (some emptyCell)]) := by
  unfold addRow
  rw [hct]

theorem addColumn_some (s : DataState) (ct : TableData) (u : User) (hd : String)
    (hct : currentTable s = some ct) :
    addColumn s (some u) hd =
      { s with tables := s.tables.map fun t =>
          if some t.id == s.currentTableId then
            { t with
              headers := ct.headers ++ [hd]
              rows := ct.rows.map fun row => row ++ [some emptyCell] }
          else t } := by
  unfold addColumn
  rw [hct]

theorem all_set_of_all (l : List Row) (p : Row → Bool) (i : Nat) (a : Row)
    (hl : l.all p = true) (ha : p a = true) : (l.set i a).all p = true := by
  rw [List.all_eq_true] at hl ⊢
  intro x hx
  rcases List.mem_or_eq_of_mem_set hx with h | h
  · exact hl x h
  · rw [h]; exact ha

theorem all_sparseRows (ct : TableData) (r : Nat)
    (hok : rowLengthsMatch ct = true) :
    (sparseRows ct r).all (fun row => row.length == ct.headers.length) = true := by
  unfold sparseRows
  by_cases h : r < ct.rows.length
  · rw [if_pos h]; exact hok
  · have hok' : (ct.rows.all fun row => row.length == ct.headers.length) = true := hok
    rw [if_neg h, List.all_append, hok', Bool.true_and, List.all_eq_true]
    intro x hx
    rw [(List.mem_replicate.mp hx).2]
    simp

theorem getD_mem_of_lt (l : List Row) (r : Nat) (h : r < l.length) :
    l.getD r [] ∈ l := by
  have : l.getD r [] = l.get ⟨r, h⟩ := by
    rw [List.getD_eq_getElem?_getD, ← List.get?_eq_getElem?, List.get?_eq_get h]
    rfl
  rw [this]
  exact List.get_mem l r h

theorem updateCell_state_shape (s : DataState) (user : Option User) (r c : Nat)
    (v : CellValue) (now : Nat) :
    (updateCell s user r c v now).1 = s ∨
    ∃ L, (updateCell s user r c v now).1 = setCurrentRows s L := by
  cases hct : currentTable s with
  | none => rw [updateCell_no_context s user r c v now (Or.inl hct)]; exact Or.inl rfl
  | some ct =>
    cases user with
    | none => rw [updateCell_no_context s none r c v now (Or.inr rfl)]; exact Or.inl rfl
    | some u =>
      cases hE : canEditCell (some ct) (some u) r c with
      | false =>
        rw [updateCell_forbidden_branch s ct u r c v now hct hE]
        exact Or.inl rfl
      | true =>
        cases hC : ((getCell ct r c).map Cell.confirmed).getD false with
        | true =>
          obtain ⟨cell, hcell, hconf⟩ :
              ∃ cell, getCell ct r c = some cell ∧ cell.confirmed = true := by
            cases hg : getCell ct r c with
            | none => rw [hg] at hC; exact absurd hC (by simp)
            | some cell =>
              rw [hg] at hC
              exact ⟨cell, rfl, by simpa using hC⟩
          rw [updateCell_locked_branch s ct u r c v now cell hct hE hcell hconf]
          exact Or.inl rfl
        | false =>
          rw [updateCell_success_branch s ct u r c v now hct hE hC]
          exact Or.inr ⟨_, rfl⟩

theorem map_version_replace (l : List TableData) (tid : Option String)
    (g : TableData → TableData) (hg : ∀ t, (g t).version = t.version) :
    (l.map fun t => if some t.id == tid then g t else t).map TableData.version =
      l.map TableData.version := by
  induction l with
  | nil => rfl
  | cons t l ih =>
    simp only [List.map_cons, ih]
    by_cases h : (some t.id == tid) = true
    · rw [if_pos h, hg]
    · rw [if_neg h]

theorem map_version_const (l : List TableData) (tid : Option String)
    (b : TableData) :
    (l.map fun t => if some t.id == tid then b else t).map TableData.version =
      l.map fun t => if some t.id == tid then b.version else t.version := by
  induction l with
  | nil => rfl
  | cons t l ih =>
    simp only [List.map_cons, ih]
    by_cases h : (some t.id == tid) = true
    · rw [if_pos h, if_pos h]
    · rw [if_neg h, if_neg h]

theorem versionsOf_setCurrentRows (s : DataState) (rows' : List Row) :
    versionsOf (setCurrentRows s rows') = versionsOf s := by
  unfold versionsOf setCurrentRows
  exact map_version_replace s.tables s.currentTableId _ (fun t => rfl)

theorem confirmCell_state_shape (s : DataState) (user : Option User) (r c : Nat)
    (comments : Option String) (now : Nat) (s2 : DataState) (o : CellOpOutcome)
    (h : confirmCell s user r c comments now = .ok (s2, o)) :
    s2 = s ∨ ∃ L, s2 = setCurrentRows s L := by
  unfold confirmCell at h
  split at h
  any_goals split at h
  any_goals split at h
  any_goals split at h
  all_goals
    first
      | exact Except.noConfusion h
      | (injection h with h2
         injection h2 with h3 h4
         exact Or.inl h3.symm)
      | (injection h with h2
         injection h2 with h3 h4
         exact Or.inr ⟨_, h3.symm⟩)

theorem setCellPermissions_state_shape (s : DataState) (user : Option User)
    (r c : Nat) (perms : CellPermissions) (s2 : DataState) (o : CellOpOutcome)
    (h : setCellPermissions s user r c perms = .ok (s2, o)) :
    s2 = s ∨ ∃ L, s2 = setCurrentRows s L := by
  unfold setCellPermissions at h
  split at h
  any_goals split at h
  any_goals split at h
  any_goals split at h
  all_goals
    first
      | exact Except.noConfusion h
      | (injection h with h2
         injection h2 with h3 h4
         exact Or.inl h3.symm)
      | (injection h with h2
         injection h2 with h3 h4
         exact Or.inr ⟨_, h3.symm⟩)

/-! ### Claims -/

/-- C1: once a cell is confirmed, every subsequent `updateCell` on its
coordinates fails (never returns the success outcome) and leaves the whole
table state — value, history, everything — unchanged. -/
theorem confirmed_cell_immutable (s : DataState) (ct : TableData)
    (user : Option User) (r c : Nat) (cell : Cell) (v : CellValue) (now : Nat)
    (hct : currentTable s = some ct)
    (hcell : getCell ct r c = some cell)
    (hconf : cell.confirmed = true) :
    (updateCell s user r c v now).1 = s ∧
    (updateCell s user r c v now).2 ≠ .success := by
  cases user with
  | none =>
    rw [updateCell_no_context s none r c v now (Or.inr rfl)]
    exact ⟨rfl, by simp⟩
  | some u =>
    cases hE : canEditCell (some ct) (some u) r c with
    | false =>
      rw [updateCell_forbidden_branch s ct u r c v now hct hE]
      exact ⟨rfl, by simp⟩
    | true =>
      rw [updateCell_locked_branch s ct u r c v now cell hct hE hcell hconf]
      exact ⟨rfl, by simp⟩

/-- Witness for C1: updating the confirmed cell (0,1) of the locked demo
state, even as admin, returns failure and keeps the state. -/
theorem confirmed_cell_immutable_witness :
    (updateCell lockedState (some adminUser) 0 1 (.num 99) 11).1 = lockedState ∧
    (updateCell lockedState (some adminUser) 0 1 (.num 99) 11).2 ≠ .success :=
  confirmed_cell_immutable lockedState lockedTable (some adminUser) 0 1
    lockedCell (.num 99) 11 (by decide) (by decide) rfl

/-- C3: `updateCell` checks its preconditions in order — (a) missing table
or missing user fails silently; (b) otherwise a failing `canEdit` gives the
forbidden outcome (regardless of the cell's confirmed flag); (c) otherwise
a confirmed existing cell gives the locked outcome; each failure leaves the
state unchanged. -/
theorem updateCell_precondition_order (s : DataState) (user : Option User)
    (r c : Nat) (v : CellValue) (now : Nat) :
    ((currentTable s = none ∨ user = none) →
      updateCell s user r c v now = (s, .silentFail)) ∧
    (∀ ct u, currentTable s = some ct → user = some u →
      canEditCell (some ct) (some u) r c = false →
      updateCell s user r c v now = (s, .forbidden)) ∧
    (∀ ct u cell, currentTable s = some ct → user = some u →
      canEditCell (some ct) (some u) r c = true →
      getCell ct r c = some cell → cell.confirmed = true →
      updateCell s user r c v now = (s, .locked)) := by
  refine ⟨fun h => updateCell_no_context s user r c v now h, ?_, ?_⟩
  · intro ct u hct hu hE
    subst hu
    exact updateCell_forbidden_branch s ct u r c v now hct hE
  · intro ct u cell hct hu hE hcell hconf
    subst hu
    exact updateCell_locked_branch s ct u r c v now cell hct hE hcell hconf

/-- Witness for C3: all three failure branches on concrete states — no
user (silent), viewer editing a confirmed cell (forbidden wins over
locked), admin editing a confirmed cell (locked). -/
theorem updateCell_precondition_order_witness :
    updateCell demoState none 0 1 (.num 5) 2 = (demoState, .silentFail) ∧
    updateCell lockedState (some viewerUser) 0 1 (.num 5) 2 = (lockedState, .forbidden) ∧
    updateCell lockedState (some adminUser) 0 1 (.num 5) 2 = (lockedState, .locked) :=
  ⟨(updateCell_precondition_order demoState none 0 1 (.num 5) 2).1 (Or.inr rfl),
   (updateCell_precondition_order lockedState (some viewerUser) 0 1 (.num 5) 2).2.1
      lockedTable viewerUser (by decide) rfl (by decide),
   (updateCell_precondition_order lockedState (some adminUser) 0 1 (.num 5) 2).2.2
      lockedTable adminUser lockedCell (by decide) rfl (by decide) (by decide) rfl⟩

/-- C2: every successful `updateCell` call appends exactly one history
entry to the target cell — the length grows by 1, the recorded value is the
cell's value immediately before the call, the existing entries remain an
unchanged prefix — and the cell's value becomes the new value. -/
theorem updateCell_appends_history (s : DataState) (ct : TableData) (u : User)
    (r c : Nat) (v : CellValue) (now : Nat) (s' : DataState)
    (hct : currentTable s = some ct)
    (hs : updateCell s (some u) r c v now = (s', .success)) :
    ((currentTable s').bind fun t => getCell t r c) =
      some (updatedCell ((getCell ct r c).getD emptyCell) v now u.id) ∧
    (((currentTable s').bind fun t => getCell t r c).map fun cell => cell.value) =
      some v ∧
    (((currentTable s').bind fun t => getCell t r c).map
        fun cell => cell.history.length) =
      some (((getCell ct r c).getD emptyCell).history.length + 1) ∧
    (((currentTable s').bind fun t => getCell t r c).map
        fun cell => cell.history.take
          ((getCell ct r c).getD emptyCell).history.length) =
      some ((getCell ct r c).getD emptyCell).history ∧
    (((currentTable s').bind fun t => getCell t r c).map
        fun cell => cell.history.getLast?) =
      some (some { value := ((getCell ct r c).getD emptyCell).value
                   timestamp := now
                   userId := u.id }) := by
  cases hE : canEditCell (some ct) (some u) r c with
  | false =>
    rw [updateCell_forbidden_branch s ct u r c v now hct hE] at hs
    exact absurd (congrArg Prod.snd hs) (by simp)
  | true =>
    cases hC : ((getCell ct r c).map Cell.confirmed).getD false with
    | true =>
      obtain ⟨cell, hcell, hconf⟩ :
          ∃ cell, getCell ct r c = some cell ∧ cell.confirmed = true := by
        cases hg : getCell ct r c with
        | none => rw [hg] at hC; exact absurd hC (by simp)
        | some cell =>
          rw [hg] at hC
          exact ⟨cell, rfl, by simpa using hC⟩
      rw [updateCell_locked_branch s ct u r c v now cell hct hE hcell hconf] at hs
      exact absurd (congrArg Prod.snd hs) (by simp)
    | false =>
      rw [updateCell_success_branch s ct u r c v now hct hE hC] at hs
      have hstate : s' = setCurrentRows s ((sparseRows ct r).set r
          (jsSetRow ((sparseRows ct r).getD r []) c
            (updatedCell ((((sparseRows ct r).getD r []).getD c none).getD emptyCell)
              v now u.id))) := (congrArg Prod.fst hs).symm
      have hmain : ((currentTable s').bind fun t => getCell t r c) =
          some (updatedCell ((getCell ct r c).getD emptyCell) v now u.id) := by
        rw [hstate, currentTable_setCurrentRows s ct _ hct]
        simp only [Option.some_bind]
        rw [getCell_after_set, sparse_current_cell]
      refine ⟨hmain, ?_, ?_, ?_, ?_⟩ <;> rw [hmain]
      · rfl
      · simp [updatedCell]
      · simp [updatedCell, List.take_left]
      · simp [updatedCell, List.getLast?_concat]

/-- Witness for C2: a successful DP-team update of cell (0,1) of the demo
state (previous value 42, new value 99) appends exactly the entry
recording 42. -/
theorem updateCell_appends_history_witness :
    ((currentTable (updateCell demoState (some dpUser) 0 1 (.num 99) 11).1).bind
        fun t => getCell t 0 1) =
      some (updatedCell ((getCell demoTable 0 1).getD emptyCell) (.num 99) 11
        dpUser.id) ∧
    (((currentTable (updateCell demoState (some dpUser) 0 1 (.num 99) 11).1).bind
        fun t => getCell t 0 1).map fun cell => cell.value) = some (.num 99) ∧
    (((currentTable (updateCell demoState (some dpUser) 0 1 (.num 99) 11).1).bind
        fun t => getCell t 0 1).map fun cell => cell.history.length) =
      some (((getCell demoTable 0 1).getD emptyCell).history.length + 1) ∧
    (((currentTable (updateCell demoState (some dpUser) 0 1 (.num 99) 11).1).bind
        fun t => getCell t 0 1).map fun cell => cell.history.take
          ((getCell demoTable 0 1).getD emptyCell).history.length) =
      some ((getCell demoTable 0 1).getD emptyCell).history ∧
    (((currentTable (updateCell demoState (some dpUser) 0 1 (.num 99) 11).1).bind
        fun t => getCell t 0 1).map fun cell => cell.history.getLast?) =
      some (some { value := ((getCell demoTable 0 1).getD emptyCell).value
                   timestamp := 11
                   userId := dpUser.id }) :=
  updateCell_appends_history demoState demoTable dpUser 0 1 (.num 99) 11
    (updateCell demoState (some dpUser) 0 1 (.num 99) 11).1 (by decide) (by decide)

/-- C4 (refuted by the code): `confirmCell` and `setCellPermissions` with a
row index beyond the current table's bounds throw a TypeError — the read
`updatedRows[rowIndex][colIndex]` dereferences an undefined row — rather
than surfacing a rejected operation.  The demo state has 2 rows; row index
5 crashes both operations even for fully authorized users. -/
theorem confirmCell_crashes_on_oob_row :
    confirmCell demoState (some qaUser) 5 0 none 9 =
      .error "TypeError: cannot read properties of undefined" ∧
    setCellPermissions demoState (some adminUser) 5 0
        { roles := ["admin"], editable := true, viewable := true } =
      .error "TypeError: cannot read properties of undefined" :=
  ⟨rfl, rfl⟩

/-- C10: calling `confirmCell` on an already-confirmed cell (actor holding
`confirm_data`) succeeds again, overwriting confirmer, timestamp and
comments; `confirmed` stays true and value, history and permissions are
carried over unchanged. -/
theorem confirmCell_overwrites_confirmation (s : DataState) (ct : TableData)
    (u : User) (r c : Nat) (cell : Cell) (comments : Option String) (now : Nat)
    (hct : currentTable s = some ct)
    (hcell : getCell ct r c = some cell)
    (_hconf : cell.confirmed = true)
    (hperm : u.permissions.contains "confirm_data" = true) :
    (confirmCell s (some u) r c comments now).map
        (fun p => (((currentTable p.1).bind fun t => getCell t r c), p.2)) =
      .ok (some { cell with
                  confirmed := true
                  confirmedBy := some u.id
                  confirmedAt := some now
                  confirmedComments := comments }, .applied) := by
  obtain ⟨row, hrow, hcl⟩ :
      ∃ row, ct.rows.get? r = some row ∧ row.getD c none = some cell := by
    unfold getCell at hcell
    cases hg : ct.rows.get? r with
    | none => rw [hg] at hcell; exact absurd hcell (by simp)
    | some row =>
      rw [hg, Option.some_bind] at hcell
      exact ⟨row, rfl, hcell⟩
  rw [confirmCell_applied_branch s ct u r c comments now row cell hct hperm hrow hcl]
  have hget := getCell_set_existing ct r c row
    { cell with
      confirmed := true
      confirmedBy := some u.id
      confirmedAt := some now
      confirmedComments := comments } hrow
  simp only [Except.map, currentTable_setCurrentRows s ct _ hct, Option.some_bind,
    hget]

/-- Witness for C10: re-confirming the already-confirmed cell (0,1) of the
locked demo state as the QA user stamps the new confirmer, time and
comment. -/
theorem confirmCell_overwrites_confirmation_witness :
    (confirmCell lockedState (some qaUser) 0 1 (some "again") 9).map
        (fun p => (((currentTable p.1).bind fun t => getCell t 0 1), p.2)) =
      .ok (some { lockedCell with
                  confirmed := true
                  confirmedBy := some qaUser.id
                  confirmedAt := some 9
                  confirmedComments := some "again" }, .applied) :=
  confirmCell_overwrites_confirmation lockedState lockedTable qaUser 0 1 lockedCell
    (some "again") 9 (by decide) (by decide) rfl (by decide)

/-- C6: for every user with role admin and every cell, regardless of the
cell's permissions record, both `canView(row, col)` and `canEdit(row, col)`
return true, given a table is selected and the user is authenticated. -/
theorem admin_bypass (s : DataState) (ct : TableData) (u : User) (r c : Nat)
    (hct : currentTable s = some ct) (hrole : u.role = "admin") :
    canEditCell (currentTable s) (some u) r c = true ∧
    canViewCell (currentTable s) (some u) r c = true := by
  rw [hct]
  exact ⟨by simp [canEditCell, hrole], by simp [canViewCell, hrole]⟩

/-- Witness for C6: the admin mock user on cell (0,0) of the demo state. -/
theorem admin_bypass_witness :
    currentTable demoState = some demoTable ∧ adminUser.role = "admin" ∧
    canEditCell (currentTable demoState) (some adminUser) 0 0 = true ∧
    canViewCell (currentTable demoState) (some adminUser) 0 0 = true :=
  ⟨by decide, rfl,
   (admin_bypass demoState demoTable adminUser 0 0 (by decide) rfl).1,
   (admin_bypass demoState demoTable adminUser 0 0 (by decide) rfl).2⟩

/-- C7: for an existing cell with no permissions record (table selected,
user authenticated), every non-admin role can view it, and can edit it
exactly when the role is the data-producer role `dp_team` — so `qa_team` or
`viewer` get view = true, edit = false, while `dp_team` gets both true. -/
theorem default_permission_asymmetry (s : DataState) (ct : TableData) (u : User)
    (r c : Nat) (cell : Cell)
    (hct : currentTable s = some ct)
    (hcell : getCell ct r c = some cell)
    (hperm : cell.permissions = none)
    (hrole : u.role ≠ "admin") :
    canViewCell (currentTable s) (some u) r c = true ∧
    canEditCell (currentTable s) (some u) r c = (u.role == "dp_team") := by
  rw [hct]
  have hb : (u.role == "admin") = false := by
    simp only [beq_eq_false_iff_ne, ne_eq]
    exact hrole
  exact ⟨by simp [canViewCell, hb, hcell, hperm],
         by simp [canEditCell, hb, hcell, hperm]⟩

/-- Witness for C7: on the override-free cell (0,0) of the demo state,
the QA-team user can view but not edit, the DP-team user can view and
edit. -/
theorem default_permission_asymmetry_witness :
    (canViewCell (currentTable demoState) (some qaUser) 0 0 = true ∧
      canEditCell (currentTable demoState) (some qaUser) 0 0 = (qaUser.role == "dp_team")) ∧
    (canViewCell (currentTable demoState) (some dpUser) 0 0 = true ∧
      canEditCell (currentTable demoState) (some dpUser) 0 0 = (dpUser.role == "dp_team")) ∧
    (qaUser.role == "dp_team") = false ∧ (dpUser.role == "dp_team") = true :=
  ⟨default_permission_asymmetry demoState demoTable qaUser 0 0
      (plainCell (.str "B1")) (by decide) (by decide) (by decide) (by decide),
   default_permission_asymmetry demoState demoTable dpUser 0 0
      (plainCell (.str "B1")) (by decide) (by decide) (by decide) (by decide),
   by decide, by decide⟩

/-- Counterexample to C5 as stated: on a selected 1-header, 1-row table
satisfying the row-length invariant, `updateCell(0, 5, 7)` succeeds (column
5 does not exist, so `canEdit` defaults to true) and the JS assignment
`row[5] = cell` grows row 0 to length 6 while `headers.length` stays 1. -/
theorem structural_consistency_cex :
    rowLengthsMatch tinyTable = true ∧
    (updateCell tinyState (some adminUser) 0 5 (.num 7) 3).2 = .success ∧
    ((currentTable (updateCell tinyState (some adminUser) 0 5 (.num 7) 3).1).map
        rowLengthsMatch) = some false := by decide

/-- C5 (amended): after `addRow` every row of the current table still has
`headers.length` cells and the appended row has exactly `headers.length`
empty cells; after `addColumn` one header and one empty cell per row are
appended, keeping the invariant; and `updateCell` preserves the invariant
PROVIDED the column index is within `headers.length` — the counterexample
forces that proviso, since an out-of-range column grows the touched row
beyond the header count. -/
theorem structural_consistency (s : DataState) (ct : TableData) (u : User)
    (hct : currentTable s = some ct)
    (hok : rowLengthsMatch ct = true) :
    (currentTable (addRow s (some u)) =
      some { ct with rows := ct.rows ++ [List.replicate ct.headers.length (some emptyCell)] }) ∧
    rowLengthsMatch { ct with rows := ct.rows ++ [List.replicate ct.headers.length (some emptyCell)] } = true ∧
    (∀ hd, currentTable (addColumn s (some u) hd) =
      some { ct with headers := ct.headers ++ [hd], rows := ct.rows.map (fun row => row ++ [some emptyCell]) } ∧
      rowLengthsMatch { ct with headers := ct.headers ++ [hd], rows := ct.rows.map (fun row => row ++ [some emptyCell]) } = true) ∧
    (∀ r c v now t, c < ct.headers.length →
      currentTable (updateCell s (some u) r c v now).1 = some t →
      rowLengthsMatch t = true) := by
  have hok' : (ct.rows.all fun row => row.length == ct.headers.length) = true := hok
  refine ⟨?_, ?_, ?_, ?_⟩
  · rw [addRow_some s ct u hct]
    exact currentTable_setCurrentRows s ct _ hct
  · show ((ct.rows ++ [List.replicate ct.headers.length (some emptyCell)]).all
      fun row => row.length == ct.headers.length) = true
    rw [List.all_append, hok', Bool.true_and]
    simp
  · intro hd
    constructor
    · rw [addColumn_some s ct u hd hct]
      exact currentTable_mapped s ct _ (fun t => Or.inl rfl) hct
    · show ((ct.rows.map (fun row => row ++ [some emptyCell])).all
        fun row => row.length == (ct.headers ++ [hd]).length) = true
      rw [List.all_eq_true]
      intro x hx
      obtain ⟨row, hmem, hrow⟩ := List.mem_map.mp hx
      have hlen : row.length = ct.headers.length :=
        beq_iff_eq.mp ((List.all_eq_true.mp hok') row hmem)
      rw [← hrow]
      simp [hlen]
  · intro r c v now t hc hcur
    cases hE : canEditCell (some ct) (some u) r c with
    | false =>
      rw [updateCell_forbidden_branch s ct u r c v now hct hE, hct] at hcur
      injection hcur with ht
      rw [← ht]
      exact hok
    | true =>
      cases hC : ((getCell ct r c).map Cell.confirmed).getD false with
      | true =>
        obtain ⟨cell, hcell, hconf⟩ :
            ∃ cell, getCell ct r c = some cell ∧ cell.confirmed = true := by
          cases hg : getCell ct r c with
          | none => rw [hg] at hC; exact absurd hC (by simp)
          | some cell =>
            rw [hg] at hC
            exact ⟨cell, rfl, by simpa using hC⟩
        rw [updateCell_locked_branch s ct u r c v now cell hct hE hcell hconf,
          hct] at hcur
        injection hcur with ht
        rw [← ht]
        exact hok
      | false =>
        rw [updateCell_success_branch s ct u r c v now hct hE hC,
          currentTable_setCurrentRows s ct _ hct] at hcur
        injection hcur with ht
        rw [← ht]
        have hrowlen : ((sparseRows ct r).getD r []).length = ct.headers.length := by
          have hmem := getD_mem_of_lt (sparseRows ct r) r (length_sparseRows ct r)
          exact beq_iff_eq.mp
            ((List.all_eq_true.mp (all_sparseRows ct r hok)) _ hmem)
        show (((sparseRows ct r).set r
            (jsSetRow ((sparseRows ct r).getD r []) c
              (updatedCell ((((sparseRows ct r).getD r []).getD c none).getD emptyCell)
                v now u.id))).all fun row => row.length == ct.headers.length) = true
        apply all_set_of_all _ _ _ _ (all_sparseRows ct r hok)
        unfold jsSetRow
        rw [if_pos (by rw [hrowlen]; exact hc), List.length_set, hrowlen]
        simp

/-- Witness for the amended C5 on the demo state: an add-row, an
add-column and an in-range DP-team update all keep every row at the header
count. -/
theorem structural_consistency_witness :
    rowLengthsMatch demoTable = true ∧
    currentTable (addRow demoState (some dpUser)) =
      some { demoTable with
             rows := demoTable.rows ++
               [List.replicate demoTable.headers.length (some emptyCell)] } ∧
    currentTable (addColumn demoState (some dpUser) "H3") =
      some { demoTable with
             headers := demoTable.headers ++ ["H3"]
             rows := demoTable.rows.map (fun row => row ++ [some emptyCell]) } ∧
    rowLengthsMatch
      ((currentTable (updateCell demoState (some dpUser) 0 1 (.bool true) 4).1).getD
        demoTable) = true :=
  ⟨by decide,
   (structural_consistency demoState demoTable dpUser (by decide) (by decide)).1,
   ((structural_consistency demoState demoTable dpUser (by decide) (by decide)).2.2.1
      "H3").1,
   (structural_consistency demoState demoTable dpUser (by decide) (by decide)).2.2.2
      0 1 (.bool true) 4 _ (by decide) (by decide)⟩

theorem confirmTable_applied_branch (s : DataState) (ct : TableData) (u : User)
    (comments : Option String) (now : Nat)
    (hct : currentTable s = some ct)
    (hperm : u.permissions.contains "confirm_data" = true) :
    confirmTable s (some u) comments now =
      ({ s with tables := s.tables.map fun t =>
          if some t.id == s.currentTableId then
            { ct with
              confirmed := true
              confirmedBy := some u.id
              confirmedAt := some now
              confirmedComments := comments
              version := ct.version + 1 }
          else t }, .applied) := by
  have hmem : "confirm_data" ∈ u.permissions := List.elem_iff.mp hperm
  unfold confirmTable
  rw [hct]
  simp [hperm, hmem]

/-- C8: a table's `version` is 1 at creation; `confirmTable` by an actor
holding `confirm_data` bumps the current table's version by exactly 1; and
no other operation — `selectTable`, `addRow`, `addColumn`, `updateCell`,
`confirmCell`, `setCellPermissions`, or `createTable` acting on the
pre-existing tables — changes any version. -/
theorem version_monotonicity (s : DataState) (u : User) :
    (∀ newId name headers n,
      versionsOf (createTable s (some u) newId name headers n) =
        versionsOf s ++ [1]) ∧
    (∀ ct comments now, currentTable s = some ct →
      u.permissions.contains "confirm_data" = true →
      versionsOf (confirmTable s (some u) comments now).1 =
        s.tables.map (fun t =>
          if some t.id == s.currentTableId then ct.version + 1 else t.version)) ∧
    (∀ id, versionsOf (selectTable s id) = versionsOf s) ∧
    versionsOf (addRow s (some u)) = versionsOf s ∧
    (∀ hd, versionsOf (addColumn s (some u) hd) = versionsOf s) ∧
    (∀ r c v now, versionsOf (updateCell s (some u) r c v now).1 = versionsOf s) ∧
    (∀ r c comments now s2 o,
      confirmCell s (some u) r c comments now = .ok (s2, o) →
      versionsOf s2 = versionsOf s) ∧
    (∀ r c perms s2 o,
      setCellPermissions s (some u) r c perms = .ok (s2, o) →
      versionsOf s2 = versionsOf s) := by
  refine ⟨?_, ?_, ?_, ?_, ?_, ?_, ?_, ?_⟩
  · intro newId name headers n
    unfold createTable versionsOf
    simp
  · intro ct comments now hct hperm
    rw [confirmTable_applied_branch s ct u comments now hct hperm]
    exact map_version_const s.tables s.currentTableId _
  · intro id
    unfold selectTable
    cases hf : s.tables.find? (fun t => t.id == id) <;> rfl
  · cases hct : currentTable s with
    | none => unfold addRow; rw [hct]
    | some ct =>
      rw [addRow_some s ct u hct]
      exact versionsOf_setCurrentRows s _
  · intro hd
    cases hct : currentTable s with
    | none => unfold addColumn; rw [hct]
    | some ct =>
      rw [addColumn_some s ct u hd hct]
      exact map_version_replace s.tables s.currentTableId _ (fun t => rfl)
  · intro r c v now
    rcases updateCell_state_shape s (some u) r c v now with hsh | ⟨L, hsh⟩
    · rw [hsh]
    · rw [hsh]
      exact versionsOf_setCurrentRows s L
  · intro r c comments now s2 o h
    rcases confirmCell_state_shape s (some u) r c comments now s2 o h with
      hsh | ⟨L, hsh⟩
    · rw [hsh]
    · rw [hsh]
      exact versionsOf_setCurrentRows s L
  · intro r c perms s2 o h
    rcases setCellPermissions_state_shape s (some u) r c perms s2 o h with
      hsh | ⟨L, hsh⟩
    · rw [hsh]
    · rw [hsh]
      exact versionsOf_setCurrentRows s L

/-- Witness for C8 on the demo state with the QA user (who holds
`confirm_data`): creation appends version 1, table confirmation bumps the
selected table to 2, and select/add-row/update leave versions alone. -/
theorem version_monotonicity_witness :
    versionsOf (createTable demoState (some qaUser) "t9" "New" ["A"] 2) =
      versionsOf demoState ++ [1] ∧
    versionsOf (confirmTable demoState (some qaUser) none 4).1 =
      demoState.tables.map (fun t =>
        if some t.id == demoState.currentTableId then demoTable.version + 1
        else t.version) ∧
    versionsOf (selectTable demoState "t1") = versionsOf demoState ∧
    versionsOf (addRow demoState (some qaUser)) = versionsOf demoState ∧
    versionsOf (updateCell demoState (some qaUser) 0 0 (.num 1) 5).1 =
      versionsOf demoState :=
  ⟨(version_monotonicity demoState qaUser).1 "t9" "New" ["A"] 2,
   (version_monotonicity demoState qaUser).2.1 demoTable none 4 (by decide) (by decide),
   (version_monotonicity demoState qaUser).2.2.1 "t1",
   (version_monotonicity demoState qaUser).2.2.2.1,
   (version_monotonicity demoState qaUser).2.2.2.2.2.1 0 0 (.num 1) 5⟩

theorem contains_comma_quote (l : List Char) :
    (l.contains ',' || l.contains '"') = l.any fun ch => ch = ',' || ch = '"' := by
  induction l with
  | nil => rfl
  | cons ch l ih =>
    simp only [List.contains_cons, List.any_cons, ← ih]
    by_cases h1 : ch = ','
    · subst h1; simp
    · by_cases h2 : ch = '"'
      · subst h2; simp
      · have b1 : (',' == ch) = false := by
          simp only [beq_eq_false_iff_ne, ne_eq]
          intro h
          exact h1 h.symm
        have b2 : ('"' == ch) = false := by
          simp only [beq_eq_false_iff_ne, ne_eq]
          intro h
          exact h2 h.symm
        simp [b1, b2, h1, h2, Bool.or_assoc, Bool.or_left_comm]

theorem doubleQuotes_eq_flatMap (s : String) :
    doubleQuotes s =
      String.mk (s.data.flatMap fun ch => if ch = '"' then ['"', '"'] else [ch]) := by
  unfold doubleQuotes
  congr 1
  induction s.data with
  | nil => rfl
  | cons ch l ih =>
    simp only [List.foldr_cons, List.flatMap_cons, ih]
    by_cases h : ch = '"'
    · rw [if_pos h, if_pos h]; rfl
    · rw [if_neg h, if_neg h]; rfl

/-- Counterexample to C9 as stated: exporting a table whose header is the
single field `a,b` (with headers on) emits the header unquoted, so not
every comma-containing field is wrapped in double quotes — the
claim-faithful serializer disagrees with the code on this table. -/
theorem csv_header_quoting_cex :
    handleExportCSV csvTable true = "a,b\nx\n" ∧
    exportCSVPerClaim csvTable true = "\"a,b\"\nx\n" ∧
    handleExportCSV csvTable true ≠ exportCSVPerClaim csvTable true := by
  refine ⟨by decide, by decide, by decide⟩

/-- C9 (amended): the CSV export equals the serializer that quotes (with
doubled embedded quotes) exactly the data-row string fields containing a
comma or a quote, emits header fields verbatim and unquoted, includes the
header row iff the toggle is on, and lists the data rows in table order. -/
theorem csv_export_amended (t : TableData) (inc : Bool) :
    handleExportCSV t inc = exportCSVAmended t inc := by
  unfold handleExportCSV exportCSVAmended
  congr 1
  congr 1
  apply List.map_congr_left
  intro row _
  congr 1
  unfold csvRowLine
  congr 1
  apply List.map_congr_left
  intro oc _
  cases oc with
  | none => rfl
  | some cell =>
    dsimp only
    cases cell.value with
    | str str =>
      dsimp only [csvDataField]
      rw [contains_comma_quote, doubleQuotes_eq_flatMap]
    | num n => rfl
    | bool b => rfl
    | null => rfl

end DataShield
